import Mathlib

/-!
Verification of `scratch.py`.

A shallow embedding of the census-mapping script `src/scratch.py`.

Modelling conventions:
* pandas/geopandas rows become Lean structures; a DataFrame becomes a `List` of rows.
* Python floats are modelled by `ℚ` (all the verified properties are order-theoretic
  and exact in `ℚ`).
* A float `NaN` cell (as produced by `pd.qcut` when duplicate bin edges collapse the
  quantile grid to a single edge) is modelled by `Option` with `none` for `NaN`;
  any `NaN`-involving comparison is `false`, as in pandas.
* Fallible steps (`pd.concat` on an empty collection) return `Except`.
* The outcome of a `requests.get` call is an explicit `FetchOutcome` value, so the
  `try/except` logic of `get_tiger_polygons` becomes a total function on outcomes.
-/

namespace Scratch

/-- One row of the concatenated Geo Feature Table `stacked`
(columns `STATE,NAME,AREALAND,CENTLAT,CENTLON` fetched from TIGERweb, plus the
derived `DECILE` column; `DECILE` is `none` when `pd.qcut` produced `NaN`). -/
structure GeoRow where
  STATE : String
  NAME : String
  AREALAND : ℤ
  CENTLAT : ℚ
  CENTLON : ℚ
  DECILE : Option ℕ
deriving Repr, DecidableEq

/-- pandas comparison `DECILE >= k` on a float column: `NaN` (`none`) compares `false`. -/
def decileAtLeast (o : Option ℕ) (k : ℕ) : Bool :=
  match o with
  | some d => k ≤ d
  | none => false

/-- The row predicate of `scratch.py` lines 136-142: the boolean mask
`(CENTLON >= xmin) & (CENTLON <= xmax) & (CENTLAT >= ymin) & (CENTLAT <= ymax)
& (DECILE >= 19)`. -/
def centroidMask (xmin xmax ymin ymax : ℚ) (r : GeoRow) : Bool :=
  decide (xmin ≤ r.CENTLON) && decide (r.CENTLON ≤ xmax) &&
    decide (ymin ≤ r.CENTLAT) && decide (r.CENTLAT ≤ ymax) &&
    decileAtLeast r.DECILE 19

/-- Lines 136-142, `visible_centroids = stacked[mask]`: the rows of `stacked`
selected by the boolean mask, in order. -/
def visible_centroids (stacked : List GeoRow) (xmin xmax ymin ymax : ℚ) : List GeoRow :=
  stacked.filter (centroidMask xmin xmax ymin ymax)

/-- The rows the label loop draws (lines 156-172): `for idx, row in
visible_centroids.iterrows()` issues exactly one `ax.text` per row of
`visible_centroids`, so the labeled feature set is `visible_centroids` itself
(the scatter call at lines 144-152 draws the same rows as point markers). -/
def labeledRows (stacked : List GeoRow) (xmin xmax ymin ymax : ℚ) : List GeoRow :=
  visible_centroids stacked xmin xmax ymin ymax

/-- The decile value the label loop reads from `row["DECILE"]`, as a rational
(`NaN` modelled as `0`; rows reaching the loop always carry `some` decile). -/
def decileFloat (o : Option ℕ) : ℚ :=
  match o with
  | some d => (d : ℚ)
  | none => 0

/-- The `fontsize` expression of line 161:
`max(3, 9 * (row["DECILE"] ** 3 / 20 ** 3))`. -/
def labelFontSize (r : GeoRow) : ℚ :=
  max 3 (9 * (decileFloat r.DECILE ^ 3 / 20 ^ 3))

/-- The vertical label offset `y_offset = 0.015` (line 154). -/
def y_offset : ℚ := 15 / 1000

/-- One `ax.text` call issued by the label loop (lines 156-172). -/
structure TextCall where
  x : ℚ
  y : ℚ
  s : String
  fontsize : ℚ
deriving Repr, DecidableEq

/-- The sequence of `ax.text` calls issued by the loop at lines 156-172. -/
def textCalls (stacked : List GeoRow) (xmin xmax ymin ymax : ℚ) : List TextCall :=
  (visible_centroids stacked xmin xmax ymin ymax).map fun row =>
    { x := row.CENTLON
      y := row.CENTLAT + y_offset
      s := row.NAME
      fontsize := labelFontSize row }

/-! The Income-by-Geography Table and sentinel cleanup (lines 101-102). -/

/-- One row of the Income-by-Geography Table `gdf`.  The income column
`B19013_001E` is an integer census estimate or missing (`None`/`NaN`); all
other columns (names, geometry, ...) are abstracted as `other`. -/
structure IncomeRow (α : Type) where
  B19013_001E : Option ℤ
  other : α
deriving Repr, DecidableEq

/-- The census sentinel for suppressed/unavailable median household income. -/
def sentinel : ℤ := -666666666

/-- The boolean mask `gdf["B19013_001E"] == -666666666` (line 102); a missing
value compares `false`, as in pandas. -/
def sentinelMask {α : Type} (rows : List (IncomeRow α)) : List Bool :=
  rows.map fun r => decide (r.B19013_001E = some sentinel)

/-- The loc-assignment `gdf.loc[mask, "B19013_001E"] = None`: set the income
column to missing at the mask-true positions, leaving every other cell
untouched. -/
def locSetIncomeNone {α : Type} (rows : List (IncomeRow α)) (mask : List Bool) :
    List (IncomeRow α) :=
  (rows.zip mask).map fun rb => if rb.2 then { rb.1 with B19013_001E := none } else rb.1

/-- Line 102 of `scratch.py`:
`gdf.loc[gdf["B19013_001E"] == -666666666, "B19013_001E"] = None`. -/
def cleanIncomeTable {α : Type} (rows : List (IncomeRow α)) : List (IncomeRow α) :=
  locSetIncomeNone rows (sentinelMask rows)

/-- Effect of the sentinel cleanup on a single row. -/
def cleanIncomeRow {α : Type} (r : IncomeRow α) : IncomeRow α :=
  if r.B19013_001E = some sentinel then { r with B19013_001E := none } else r

/-! The boundary fetcher and the fetch orchestrator (lines 11, 14-72). -/

/-- The observable outcome of the `requests.get ... response.json()["features"]`
sequence inside `get_tiger_polygons` (lines 35-38):
* `success rows` — 2xx response whose GeoJSON parsed into a feature table;
* `requestException msg responseBody` — `requests.exceptions.RequestException`
  raised by `requests.get` or `raise_for_status` (line 41); when the failure was
  a non-2xx status the server's body exists (`some body`) but the handler never
  reads it, `none` when the transport failed before any response;
* `parseFailure msg responseBody` — `KeyError`/`ValueError` from `response.json()`
  or the missing `"features"` key (line 43), with the raw response body. -/
inductive FetchOutcome where
  | success (rows : List GeoRow)
  | requestException (msg : String) (responseBody : Option String)
  | parseFailure (msg : String) (responseBody : String)
deriving Repr, DecidableEq

/-- Python's `response.text[:200]`: the first 200 characters of the body. -/
def bodySnippet (body : String) : String :=
  String.mk (body.toList.take 200)

/-- The fetcher `get_tiger_polygons` (lines 14-45), as a function of the fetch
outcome: on
success it stores the fetched table in `geo_data` under `layer_id` and prints a
count; on `RequestException` it prints `❌ HTTP Request failed: {e}` and stores
nothing; on a parse failure it prints `❌ Failed to parse response JSON: {e}`
and `   Server Response: {response.text[:200]}...` and stores nothing.  Every
modelled exception is caught, so the function is total (nothing propagates).
`geo_data` is the insertion-ordered per-layer mapping (each layer id is fetched
once, so keys are distinct and plain append models the dict write).
Returns the updated `geo_data` and the printed lines. -/
def get_tiger_polygons (geoData : List (ℕ × List GeoRow)) (layerId : ℕ)
    (outcome : FetchOutcome) : List (ℕ × List GeoRow) × List String :=
  match outcome with
  | .success rows =>
      (geoData ++ [(layerId, rows)],
        ["✅ Successfully fetched " ++ toString rows.length ++ " centroids."])
  | .requestException msg _ =>
      (geoData, ["❌ HTTP Request failed: " ++ msg])
  | .parseFailure msg body =>
      (geoData,
        ["❌ Failed to parse response JSON: " ++ msg,
          "   Server Response: " ++ bodySnippet body ++ "..."])

/-- The two-task orchestrator (lines 48-67): both fetches are submitted to the
pool and joined; layer 28 (places) and layer 22 (county subdivisions) write to
distinct keys of `geo_data`, so the completion order does not affect the stored
values.  Fetch-level errors are already swallowed inside `get_tiger_polygons`,
so the orchestrator completes normally for every pair of outcomes. -/
def orchestrate (o28 o22 : FetchOutcome) : List (ℕ × List GeoRow) :=
  (get_tiger_polygons (get_tiger_polygons [] 28 o28).1 22 o22).1

/-- The concatenation `pd.concat` (line 72): raises
`ValueError("No objects to concatenate")` on an empty collection of tables,
otherwise stacks the rows. -/
def pdConcat (tables : List (List GeoRow)) : Except String (List GeoRow) :=
  if tables.isEmpty then .error "No objects to concatenate" else .ok tables.flatten

/-- The pipeline from the two fetch outcomes through
`stacked = pd.concat(geo_data.values(), ignore_index=True)` (line 72). -/
def stackedResult (o28 o22 : FetchOutcome) : Except String (List GeoRow) :=
  pdConcat ((orchestrate o28 o22).map Prod.snd)

/-- Whether an outcome stores a table in `geo_data` (only success does). -/
def FetchOutcome.stores : FetchOutcome → Bool
  | .success _ => true
  | _ => false

/-! The HTTP request of the boundary fetcher (lines 21-36). -/

/-- The `params` dict of lines 23-33, in insertion order.  Note the key
`"timeout"` with value `60`: it is part of the query string sent to the
ArcGIS server, not an argument to `requests.get`. -/
def tigerParams (whereClause fields : String) : List (String × String) :=
  [("where", whereClause),
   ("outFields", fields),
   ("outSR", "4326"),
   ("f", "geojson"),
   ("returnGeometry", "false"),
   ("returnCountOnly", "false"),
   ("resultOffset", "0"),
   ("resultRecordCount", "100000"),
   ("timeout", "60")]

/-- An HTTP GET as issued through `requests.get(url, params=...)`:
`timeoutKwarg` is the `timeout=` keyword argument of `requests.get`; when it is
`none` the client blocks on the request without any client-side bound. -/
structure HttpGetCall where
  url : String
  queryParams : List (String × String)
  timeoutKwarg : Option ℚ
deriving Repr, DecidableEq

/-- The GET call issued by `get_tiger_polygons` (line 36):
`requests.get(API_URL, params=params)` — no `timeout=` keyword is passed. -/
def tigerHttpGet (layerId : ℕ) (whereClause fields service : String) : HttpGetCall :=
  { url := "https://tigerweb.geo.census.gov/arcgis/rest/services/" ++ service ++
      "/MapServer/" ++ toString layerId ++ "/query"
    queryParams := tigerParams whereClause fields
    timeoutKwarg := none }

/-! Decile assignment (lines 76-78):

`stacked.groupby("STATE")["AREALAND"].transform(lambda x: pd.qcut(x, 20,
labels=False, duplicates="drop") + 1)`.

For each state group `xs`, `pd.qcut(x, 20, labels=False, duplicates="drop")`:
1. computes the 21 quantile edges `x.quantile(linspace(0, 1, 21))` using the
   default linear interpolation `h = p·(n-1)`,
   `q = sorted[⌊h⌋] + (h-⌊h⌋)·(sorted[⌊h⌋+1] - sorted[⌊h⌋])`;
2. drops duplicate edges (the edge sequence is nondecreasing, so dropping
   duplicates keeps the first occurrence of each value);
3. computes `ids = bins.searchsorted(x, side="left")` (the leftmost insertion
   index, i.e. the index of the first edge `≥ x`), then (because
   `include_lowest=True`) overrides `ids = 1` where `x == bins[0]`;
4. positions where `ids == 0` or `ids == len(bins)` become `NaN`; every other
   position gets the integer code `ids - 1`.
The script adds `1`, so a row's `DECILE` is `ids` when defined, else `NaN`. -/

/-- The group's values sorted ascending (`numpy` sort). -/
def sortedAreas (xs : List ℚ) : List ℚ :=
  xs.insertionSort (· ≤ ·)

/-- The quantile `Series.quantile(p)` with linear interpolation on the sorted
values:
`h = p·(n-1)`, result `sorted[⌊h⌋] + (h-⌊h⌋)·(sorted[⌊h⌋+1] - sorted[⌊h⌋])`
(the upper neighbour defaulting to the lower one at the right end). -/
def quantile (xs : List ℚ) (p : ℚ) : ℚ :=
  let sorted := sortedAreas xs
  let n := xs.length
  let h : ℚ := p * ((n : ℚ) - 1)
  let i : ℕ := (⌊h⌋).toNat
  let a := sorted.getD i 0
  let b := sorted.getD (i + 1) a
  a + (h - (i : ℚ)) * (b - a)

/-- The 21 quantile edges `x.quantile(np.linspace(0, 1, 21))`. -/
def quantileEdges (xs : List ℚ) : List ℚ :=
  (List.range 21).map fun i : ℕ => quantile xs ((i : ℚ) / 20)

/-- The `duplicates="drop"` step on the nondecreasing edge sequence: drop
consecutive duplicate values, keeping the first occurrence of each. -/
def dedupSorted : List ℚ → List ℚ
  | [] => []
  | [a] => [a]
  | a :: b :: rest => if a = b then dedupSorted (b :: rest) else a :: dedupSorted (b :: rest)

/-- The deduplicated bin-edge array `bins`. -/
def qcutBins (xs : List ℚ) : List ℚ :=
  dedupSorted (quantileEdges xs)

/-- The lookup `bins.searchsorted(v, side="left")` on the (sorted) edge array:
the index of the first edge `≥ v`, i.e. the leftmost insertion point of `v`. -/
def searchsortedLeft : List ℚ → ℚ → ℕ
  | [], _ => 0
  | e :: rest, v => if e < v then searchsortedLeft rest v + 1 else 0

/-- The (post-`include_lowest`) bin index `ids` of a value: where `v == bins[0]`
the index is overridden to `1`, elsewhere it is the searchsorted index. -/
def qcutIds (xs : List ℚ) (v : ℚ) : ℕ :=
  if (qcutBins xs).head? = some v then 1 else searchsortedLeft (qcutBins xs) v

/-- The integer code `pd.qcut(xs, 20, labels=False, duplicates="drop")` assigns
to `v`: `NaN` (`none`) where `ids == 0` or `ids == len(bins)`, else `ids - 1`. -/
def qcutCode (xs : List ℚ) (v : ℚ) : Option ℕ :=
  if qcutIds xs v = 0 ∨ qcutIds xs v = (qcutBins xs).length then none
  else some (qcutIds xs v - 1)

/-- The `DECILE` value of a row with `AREALAND = v` in a state group whose
`AREALAND` values are `xs`: the qcut code plus one (`NaN + 1 = NaN`). -/
def decileOf (xs : List ℚ) (v : ℚ) : Option ℕ :=
  (qcutCode xs v).map (· + 1)

/-- The number of effective buckets after duplicate edges are dropped
(= number of intervals of the deduplicated edge array). -/
def numBuckets (xs : List ℚ) : ℕ :=
  (qcutBins xs).length - 1

/-! Helper lemmas about sorting, quantile edges and binning. -/

lemma sortedAreas_sorted (xs : List ℚ) : List.Sorted (· ≤ ·) (sortedAreas xs) :=
  List.sorted_insertionSort _ xs

lemma sortedAreas_perm (xs : List ℚ) : List.Perm (sortedAreas xs) xs :=
  List.perm_insertionSort _ xs

lemma length_sortedAreas (xs : List ℚ) : (sortedAreas xs).length = xs.length :=
  (sortedAreas_perm xs).length_eq

lemma mem_sortedAreas {v : ℚ} {xs : List ℚ} : v ∈ sortedAreas xs ↔ v ∈ xs :=
  (sortedAreas_perm xs).mem_iff

lemma mem_of_getLast?_eq {l : List ℚ} {a : ℚ} (h : l.getLast? = some a) : a ∈ l := by
  induction l with
  | nil => simp at h
  | cons b t ih =>
    cases t with
    | nil =>
      obtain rfl : b = a := by simpa using h
      exact List.mem_cons_self _ _
    | cons c t' =>
      rw [List.getLast?_cons_cons] at h
      exact List.mem_cons_of_mem _ (ih h)

lemma sorted_head?_le {l : List ℚ} (hs : List.Sorted (· ≤ ·) l) {a v : ℚ}
    (hh : l.head? = some a) (hv : v ∈ l) : a ≤ v := by
  cases l with
  | nil => cases hv
  | cons b t =>
    obtain rfl : b = a := by simpa using hh
    rcases List.mem_cons.mp hv with rfl | hv
    · exact le_refl v
    · exact List.rel_of_sorted_cons hs v hv

lemma sorted_le_getLast? {l : List ℚ} (hs : List.Sorted (· ≤ ·) l) {a v : ℚ}
    (hh : l.getLast? = some a) (hv : v ∈ l) : v ≤ a := by
  induction l with
  | nil => cases hv
  | cons b t ih =>
    cases t with
    | nil =>
      have hb : b = a := by simpa using hh
      have hv' : v = b := by simpa using hv
      rw [hv', hb]
    | cons c t' =>
      rw [List.getLast?_cons_cons] at hh
      rcases List.mem_cons.mp hv with rfl | hv
      · exact List.rel_of_sorted_cons hs a (mem_of_getLast?_eq hh)
      · exact ih hs.of_cons hh hv

lemma getLast?_eq_getD {l : List ℚ} (h : l ≠ []) :
    l.getLast? = some (l.getD (l.length - 1) 0) := by
  induction l with
  | nil => exact absurd rfl h
  | cons a t ih =>
    cases t with
    | nil => rfl
    | cons b t' =>
      rw [List.getLast?_cons_cons, ih (by simp)]
      simp [List.getD_cons_succ]

lemma head?_eq_quantile_zero {xs : List ℚ} (h : xs ≠ []) :
    (sortedAreas xs).head? = some (quantile xs 0) := by
  have hq : quantile xs 0 = (sortedAreas xs).getD 0 0 := by
    simp [quantile]
  cases hl : sortedAreas xs with
  | nil =>
    exfalso
    exact h (List.length_eq_zero.mp ((length_sortedAreas xs).symm.trans (by rw [hl]; rfl)))
  | cons s t => rw [hq, hl]; rfl

lemma getLast?_eq_quantile_one {xs : List ℚ} (h : xs ≠ []) :
    (sortedAreas xs).getLast? = some (quantile xs 1) := by
  obtain ⟨m, hm⟩ : ∃ m, xs.length = m + 1 :=
    Nat.exists_eq_succ_of_ne_zero (by simpa using h)
  have hq : quantile xs 1 = (sortedAreas xs).getD m 0 := by
    simp only [quantile, hm, one_mul]
    have h1 : ((m + 1 : ℕ) : ℚ) - 1 = (m : ℚ) := by push_cast; ring
    rw [h1, Int.floor_natCast, Int.toNat_natCast]
    ring_nf
  have hlen : (sortedAreas xs).length - 1 = m := by
    rw [length_sortedAreas, hm]
    simp
  have hne : sortedAreas xs ≠ [] := by
    intro hnil
    exact h (List.length_eq_zero.mp ((length_sortedAreas xs).symm.trans (by rw [hnil]; rfl)))
  rw [hq, getLast?_eq_getD hne, hlen]

lemma length_quantileEdges (xs : List ℚ) : (quantileEdges xs).length = 21 := by
  rw [quantileEdges, List.length_map, List.length_range]

lemma head?_quantileEdges (xs : List ℚ) :
    (quantileEdges xs).head? = some (quantile xs 0) := by
  rw [quantileEdges, show (21 : ℕ) = 20 + 1 from rfl, List.range_succ_eq_map]
  norm_num

lemma getLast?_quantileEdges (xs : List ℚ) :
    (quantileEdges xs).getLast? = some (quantile xs 1) := by
  rw [quantileEdges, show (21 : ℕ) = 20 + 1 from rfl, List.range_succ, List.map_append,
    List.map_singleton, List.getLast?_concat]
  norm_num

lemma dedupSorted_head? (l : List ℚ) : (dedupSorted l).head? = l.head? := by
  induction l using dedupSorted.induct with
  | case1 => rfl
  | case2 a => rfl
  | case3 b rest ih => rw [dedupSorted, if_pos rfl, ih]; rfl
  | case4 a b rest h ih => rw [dedupSorted, if_neg h]; rfl

lemma dedupSorted_ne_nil {l : List ℚ} (h : l ≠ []) : dedupSorted l ≠ [] := by
  intro hnil
  have hh := dedupSorted_head? l
  rw [hnil] at hh
  cases l with
  | nil => exact h rfl
  | cons a t => simp at hh

lemma dedupSorted_getLast? (l : List ℚ) : (dedupSorted l).getLast? = l.getLast? := by
  induction l using dedupSorted.induct with
  | case1 => rfl
  | case2 a => rfl
  | case3 b rest ih => rw [dedupSorted, if_pos rfl, ih, List.getLast?_cons_cons]
  | case4 a b rest h ih =>
    rw [dedupSorted, if_neg h, List.getLast?_cons_cons]
    obtain ⟨c, t', hct⟩ := List.exists_cons_of_ne_nil (dedupSorted_ne_nil (l := b :: rest) (by simp))
    rw [hct, List.getLast?_cons_cons, ← hct, ih]

lemma dedupSorted_length_le (l : List ℚ) : (dedupSorted l).length ≤ l.length := by
  induction l using dedupSorted.induct with
  | case1 => exact le_refl 0
  | case2 a => exact le_refl 1
  | case3 b rest ih => rw [dedupSorted, if_pos rfl]; exact le_trans ih (by simp)
  | case4 a b rest h ih => rw [dedupSorted, if_neg h]; simpa using ih

lemma dedupSorted_const (v : ℚ) :
    ∀ l : List ℚ, l ≠ [] → (∀ e ∈ l, e = v) → dedupSorted l = [v] := by
  intro l
  induction l using dedupSorted.induct with
  | case1 => exact fun hne _ => absurd rfl hne
  | case2 a => intro _ hc; rw [dedupSorted, hc a (by simp)]
  | case3 b rest ih =>
    intro _ hc
    rw [dedupSorted, if_pos rfl]
    exact ih (by simp) fun e he => hc e (List.mem_cons_of_mem b he)
  | case4 a b rest h ih =>
    intro _ hc
    exact absurd ((hc a (by simp)).trans (hc b (by simp)).symm) h

lemma searchsortedLeft_le_length (l : List ℚ) (v : ℚ) :
    searchsortedLeft l v ≤ l.length := by
  induction l with
  | nil => exact le_refl 0
  | cons e rest ih =>
    rw [searchsortedLeft]
    split
    · exact Nat.succ_le_succ ih
    · exact Nat.zero_le _

lemma searchsortedLeft_mono (l : List ℚ) {v w : ℚ} (hvw : v ≤ w) :
    searchsortedLeft l v ≤ searchsortedLeft l w := by
  induction l with
  | nil => exact le_refl 0
  | cons e rest ih =>
    rw [searchsortedLeft, searchsortedLeft]
    by_cases h1 : e < v
    · rw [if_pos h1, if_pos (lt_of_lt_of_le h1 hvw)]
      exact Nat.succ_le_succ ih
    · rw [if_neg h1]
      exact Nat.zero_le _

lemma searchsortedLeft_pos {l : List ℚ} {v e : ℚ} (hh : l.head? = some e) (he : e < v) :
    1 ≤ searchsortedLeft l v := by
  cases l with
  | nil => simp at hh
  | cons a rest =>
    obtain rfl : a = e := by simpa using hh
    rw [searchsortedLeft, if_pos he]
    exact Nat.succ_le_succ (Nat.zero_le _)

lemma searchsortedLeft_lt_length :
    ∀ (l : List ℚ) (v m : ℚ), l.getLast? = some m → ¬ m < v →
      searchsortedLeft l v < l.length := by
  intro l
  induction l with
  | nil => intro v m hl _; simp at hl
  | cons e rest ih =>
    intro v m hl hm
    cases rest with
    | nil =>
      obtain rfl : e = m := by simpa using hl
      rw [searchsortedLeft, if_neg hm]
      exact Nat.zero_lt_one
    | cons c t =>
      rw [List.getLast?_cons_cons] at hl
      rw [searchsortedLeft]
      split
      · exact Nat.succ_lt_succ (ih v m hl hm)
      · simp

lemma qcutBins_head? (xs : List ℚ) :
    (qcutBins xs).head? = some (quantile xs 0) := by
  rw [qcutBins, dedupSorted_head?, head?_quantileEdges]

lemma qcutBins_getLast? (xs : List ℚ) :
    (qcutBins xs).getLast? = some (quantile xs 1) := by
  rw [qcutBins, dedupSorted_getLast?, getLast?_quantileEdges]

lemma qcutBins_ne_nil (xs : List ℚ) : qcutBins xs ≠ [] := by
  apply dedupSorted_ne_nil
  intro hnil
  have := length_quantileEdges xs
  rw [hnil] at this
  simp at this

lemma length_qcutBins_le (xs : List ℚ) : (qcutBins xs).length ≤ 21 := by
  rw [qcutBins]
  exact le_trans (dedupSorted_length_le _) (le_of_eq (length_quantileEdges xs))

lemma quantile_zero_le {xs : List ℚ} {v : ℚ} (hv : v ∈ xs) : quantile xs 0 ≤ v :=
  sorted_head?_le (sortedAreas_sorted xs)
    (head?_eq_quantile_zero (List.ne_nil_of_mem hv)) (mem_sortedAreas.mpr hv)

lemma le_quantile_one {xs : List ℚ} {v : ℚ} (hv : v ∈ xs) : v ≤ quantile xs 1 :=
  sorted_le_getLast? (sortedAreas_sorted xs)
    (getLast?_eq_quantile_one (List.ne_nil_of_mem hv)) (mem_sortedAreas.mpr hv)

lemma one_le_qcutIds {xs : List ℚ} {v : ℚ} (hv : v ∈ xs) : 1 ≤ qcutIds xs v := by
  rw [qcutIds]
  split
  · exact le_refl 1
  · rename_i hhead
    have h0 : quantile xs 0 ≤ v := quantile_zero_le hv
    rcases lt_or_eq_of_le h0 with hlt | heq
    · exact searchsortedLeft_pos (qcutBins_head? xs) hlt
    · exact absurd (heq ▸ qcutBins_head? xs) hhead

lemma qcutIds_le_length (xs : List ℚ) (v : ℚ) :
    qcutIds xs v ≤ (qcutBins xs).length := by
  rw [qcutIds]
  split
  · exact List.length_pos.mpr (qcutBins_ne_nil xs)
  · exact searchsortedLeft_le_length _ _

lemma qcutIds_lt_length {xs : List ℚ} {v : ℚ} (hv : v ∈ xs)
    (hne : ∃ a ∈ xs, ∃ b ∈ xs, a ≠ b) : qcutIds xs v < (qcutBins xs).length := by
  have hq01 : quantile xs 0 < quantile xs 1 := by
    obtain ⟨a, ha, b, hb, hab⟩ := hne
    by_contra hle
    rw [not_lt] at hle
    exact hab ((le_antisymm (le_trans (le_quantile_one ha) hle) (quantile_zero_le ha)).trans
      (le_antisymm (le_trans (le_quantile_one hb) hle) (quantile_zero_le hb)).symm)
  have hxs : xs ≠ [] := List.ne_nil_of_mem hv
  have hlen2 : 2 ≤ (qcutBins xs).length := by
    cases hb : qcutBins xs with
    | nil => exact absurd hb (qcutBins_ne_nil xs)
    | cons c t =>
      cases t with
      | nil =>
        exfalso
        have h1 := qcutBins_head? xs
        have h2 := qcutBins_getLast? xs
        rw [hb] at h1 h2
        simp only [List.head?_cons, Option.some.injEq] at h1
        simp only [List.getLast?_singleton, Option.some.injEq] at h2
        exact absurd (h1 ▸ h2 ▸ rfl : quantile xs 0 = quantile xs 1) (ne_of_lt hq01)
      | cons d t' => simp
  rw [qcutIds]
  split
  · exact lt_of_lt_of_le one_lt_two hlen2
  · exact searchsortedLeft_lt_length _ _ _ (qcutBins_getLast? xs)
      (not_lt.mpr (le_quantile_one hv))

lemma decileOf_eq_qcutIds {xs : List ℚ} {v : ℚ} (hv : v ∈ xs)
    (hne : ∃ a ∈ xs, ∃ b ∈ xs, a ≠ b) : decileOf xs v = some (qcutIds xs v) := by
  have h1 := one_le_qcutIds hv
  have h2 := qcutIds_lt_length hv hne
  rw [decileOf, qcutCode, if_neg (by omega)]
  simp only [Option.map_some']
  congr 1
  omega

lemma quantile_const {xs : List ℚ} {v : ℚ} (hxs : xs ≠ []) (hvv : ∀ a ∈ xs, a = v)
    {p : ℚ} (hp0 : 0 ≤ p) (hp1 : p ≤ 1) : quantile xs p = v := by
  obtain ⟨m, hm⟩ : ∃ m, xs.length = m + 1 :=
    Nat.exists_eq_succ_of_ne_zero (by simpa using hxs)
  have hsv : ∀ a ∈ sortedAreas xs, a = v := fun a haa => hvv a (mem_sortedAreas.mp haa)
  have hslen : (sortedAreas xs).length = m + 1 := by rw [length_sortedAreas, hm]
  have hfloor : (⌊p * ((xs.length : ℚ) - 1)⌋).toNat ≤ m := by
    have hcast : ((xs.length : ℚ) - 1) = (m : ℚ) := by rw [hm]; push_cast; ring
    have h1 : p * ((xs.length : ℚ) - 1) ≤ (m : ℚ) := by
      rw [hcast]
      calc p * (m : ℚ) ≤ 1 * (m : ℚ) := by
            exact mul_le_mul_of_nonneg_right hp1 (by positivity)
        _ = (m : ℚ) := one_mul _
    have h2 : ⌊p * ((xs.length : ℚ) - 1)⌋ ≤ (m : ℤ) := by
      calc ⌊p * ((xs.length : ℚ) - 1)⌋ ≤ ⌊(m : ℚ)⌋ := Int.floor_le_floor h1
        _ = (m : ℤ) := Int.floor_natCast m
    exact Int.toNat_le.mpr h2
  have hgetD : ∀ j : ℕ, j ≤ m → (sortedAreas xs).getD j 0 = v := by
    intro j hj
    have hjlt : j < (sortedAreas xs).length := by omega
    rw [List.getD_eq_getElem _ _ hjlt]
    exact hsv _ (List.getElem_mem hjlt)
  have ha : (sortedAreas xs).getD (⌊p * ((xs.length : ℚ) - 1)⌋).toNat 0 = v :=
    hgetD _ hfloor
  have hb : (sortedAreas xs).getD ((⌊p * ((xs.length : ℚ) - 1)⌋).toNat + 1)
      ((sortedAreas xs).getD (⌊p * ((xs.length : ℚ) - 1)⌋).toNat 0) = v := by
    by_cases hlt : (⌊p * ((xs.length : ℚ) - 1)⌋).toNat + 1 < (sortedAreas xs).length
    · rw [List.getD_eq_getElem _ _ hlt]
      exact hsv _ (List.getElem_mem hlt)
    · rw [List.getD_eq_default _ _ (by omega)]
      exact ha
  simp only [quantile]
  rw [hb, ha]
  ring

lemma qcutBins_all_eq {xs : List ℚ} {v : ℚ} (hxs : xs ≠ []) (hall : ∀ a ∈ xs, a = v) :
    qcutBins xs = [v] := by
  rw [qcutBins]
  refine dedupSorted_const v _ ?_ ?_
  · intro hnil
    have := length_quantileEdges xs
    rw [hnil] at this
    cases this
  · intro e he
    rw [quantileEdges] at he
    obtain ⟨i, hi, rfl⟩ := List.mem_map.mp he
    exact quantile_const hxs hall (by positivity)
      (by
        rw [div_le_one (by norm_num)]
        exact_mod_cast Nat.le_of_lt_succ (List.mem_range.mp hi))

lemma decileOf_all_eq {xs : List ℚ} {v : ℚ} (hv : v ∈ xs) (hall : ∀ a ∈ xs, a = v) :
    decileOf xs v = none := by
  simp only [decileOf, qcutCode, qcutIds, qcutBins_all_eq (List.ne_nil_of_mem hv) hall]
  simp

lemma decileAtLeast_eq_true_iff (o : Option ℕ) (k : ℕ) :
    decileAtLeast o k = true ↔ ∃ d, o = some d ∧ k ≤ d := by
  cases o <;> simp [decileAtLeast]

lemma cleanIncomeTable_eq_map {α : Type} (rows : List (IncomeRow α)) :
    cleanIncomeTable rows = rows.map cleanIncomeRow := by
  induction rows with
  | nil => rfl
  | cons r t ih =>
    simp only [cleanIncomeTable, locSetIncomeNone, sentinelMask, List.map_cons,
      List.zip_cons_cons, cleanIncomeRow] at ih ⊢
    rw [ih]
    by_cases h : r.B19013_001E = some sentinel
    · rw [if_pos h, if_pos (decide_eq_true h)]
    · rw [if_neg h, if_neg (by simpa using h)]

/-! Claim theorems. -/

/-- C1.  The set of features drawn as labeled point markers is exactly the subset
of rows of the concatenated Geo Feature Table whose centroid longitude lies
within `[xmin, xmax]` and centroid latitude within `[ymin, ymax]` of the axes
extent determined after the choropleth is drawn, and whose `DECILE` value is
`≥ 19`; every such row is labeled and no other row is. -/
theorem labeled_set_exactly_filtered (stacked : List GeoRow) (xmin xmax ymin ymax : ℚ)
    (r : GeoRow) :
    r ∈ labeledRows stacked xmin xmax ymin ymax ↔
      r ∈ stacked ∧ xmin ≤ r.CENTLON ∧ r.CENTLON ≤ xmax ∧ ymin ≤ r.CENTLAT ∧
        r.CENTLAT ≤ ymax ∧ ∃ d, r.DECILE = some d ∧ 19 ≤ d := by
  rw [labeledRows, visible_centroids, List.mem_filter, centroidMask]
  simp only [Bool.and_eq_true, decide_eq_true_eq, decileAtLeast_eq_true_iff]
  tauto

/-- C2.  Within a state group, decile assignment is monotone in land area: if one
row's `AREALAND` is larger than another's, its `DECILE` is greater or equal
(both are defined, since two distinct area values rule out the collapsed
single-edge case). -/
theorem decile_monotone_in_area (xs : List ℚ) (a b : ℚ) (ha : a ∈ xs) (hb : b ∈ xs)
    (hab : a < b) :
    ∃ da db, decileOf xs a = some da ∧ decileOf xs b = some db ∧ da ≤ db := by
  have hne : ∃ x ∈ xs, ∃ y ∈ xs, x ≠ y := ⟨a, ha, b, hb, ne_of_lt hab⟩
  refine ⟨qcutIds xs a, qcutIds xs b, decileOf_eq_qcutIds ha hne,
    decileOf_eq_qcutIds hb hne, ?_⟩
  rw [qcutIds, qcutIds]
  by_cases h1 : (qcutBins xs).head? = some a
  · rw [if_pos h1]
    by_cases h2 : (qcutBins xs).head? = some b
    · exact absurd (Option.some.inj (h1.symm.trans h2)) (ne_of_lt hab)
    · rw [if_neg h2]
      have ha0 : quantile xs 0 = a :=
        Option.some.inj ((qcutBins_head? xs).symm.trans h1)
      exact searchsortedLeft_pos (qcutBins_head? xs) (ha0 ▸ hab)
  · rw [if_neg h1]
    by_cases h2 : (qcutBins xs).head? = some b
    · exfalso
      have hb0 : quantile xs 0 = b :=
        Option.some.inj ((qcutBins_head? xs).symm.trans h2)
      have hba : b ≤ a := hb0 ▸ quantile_zero_le ha
      exact absurd hab (not_lt.mpr hba)
    · rw [if_neg h2]
      exact searchsortedLeft_mono _ (le_of_lt hab)

/-- C2 witness: in a three-value state group the smaller area 1 gets decile 1 and
the larger area 2 gets decile 10. -/
theorem decile_monotone_in_area_witness :
    ∃ da db, decileOf [1, 2, 3] 1 = some da ∧ decileOf [1, 2, 3] 2 = some db ∧
      da ≤ db :=
  decile_monotone_in_area [1, 2, 3] 1 2 (by decide) (by decide) (by decide)

/-- C3 counterexample: in a state group whose two rows have equal land area, the
21 quantile edges are all equal, `duplicates="drop"` collapses them to a single
edge, and `pd.qcut` assigns `NaN`; the row's `DECILE` is missing, not a value
in 1..20. -/
theorem decile_nan_on_tied_state :
    decileOf [5, 5] 5 = none ∧ ¬ ∃ d, decileOf [5, 5] 5 = some d ∧ 1 ≤ d ∧ d ≤ 20 := by
  have h : decileOf [5, 5] 5 = none := decileOf_all_eq (by decide) (by decide)
  refine ⟨h, ?_⟩
  rintro ⟨d, hd, -, -⟩
  rw [h] at hd
  cases hd

/-- C3 (amended).  In every state group containing at least two distinct
`AREALAND` values, every assigned `DECILE` lies in 1..20; in a group whose
values are all equal, the `DECILE` of every row is missing (`NaN`) instead. -/
theorem decile_range_amended (xs : List ℚ) (v : ℚ) (hv : v ∈ xs) :
    ((∃ a ∈ xs, ∃ b ∈ xs, a ≠ b) → ∃ d, decileOf xs v = some d ∧ 1 ≤ d ∧ d ≤ 20) ∧
      ((∀ a ∈ xs, ∀ b ∈ xs, a = b) → decileOf xs v = none) := by
  constructor
  · intro hne
    refine ⟨qcutIds xs v, decileOf_eq_qcutIds hv hne, one_le_qcutIds hv, ?_⟩
    have h1 := qcutIds_lt_length hv hne
    have h2 := length_qcutBins_le xs
    omega
  · intro hall
    exact decileOf_all_eq hv fun a haa => hall a haa v hv

/-- C3 amended witness: the group `[1, 2, 3]` has two distinct values and its
middle row receives a decile in 1..20. -/
theorem decile_range_amended_witness :
    ∃ d, decileOf [1, 2, 3] 2 = some d ∧ 1 ≤ d ∧ d ≤ 20 :=
  (decile_range_amended [1, 2, 3] 2 (by decide)).1 ⟨1, by decide, 2, by decide, by decide⟩

/-- C4.  After the sentinel cleanup, every row whose income column was exactly
`-666666666` holds an explicit missing value there, every other row is returned
unchanged (all other columns of all rows included), and the table keeps its
length. -/
theorem sentinel_cleanup_pointwise (α : Type) (rows : List (IncomeRow α)) (i : ℕ)
    (r : IncomeRow α) (hi : rows.get? i = some r) :
    (cleanIncomeTable rows).length = rows.length ∧
      (r.B19013_001E = some (-666666666) →
        (cleanIncomeTable rows).get? i = some { r with B19013_001E := none }) ∧
      (r.B19013_001E ≠ some (-666666666) →
        (cleanIncomeTable rows).get? i = some r) := by
  rw [cleanIncomeTable_eq_map]
  refine ⟨List.length_map rows cleanIncomeRow, ?_, ?_⟩
  · intro hs
    rw [List.get?_map, hi, Option.map_some']
    simp only [cleanIncomeRow, sentinel]
    rw [if_pos hs]
  · intro hs
    rw [List.get?_map, hi, Option.map_some']
    simp only [cleanIncomeRow, sentinel]
    rw [if_neg hs]

/-- C4 witness: in a concrete two-row table the sentinel row's income becomes
missing while its other column survives, and the non-sentinel row is unchanged. -/
theorem sentinel_cleanup_pointwise_witness :
    (cleanIncomeTable [⟨some (-666666666), "blockgroupA"⟩, ⟨some 52000, "blockgroupB"⟩]).get? 0 =
        some ⟨none, "blockgroupA"⟩ ∧
      (cleanIncomeTable [⟨some (-666666666), "blockgroupA"⟩, ⟨some 52000, "blockgroupB"⟩]).get? 1 =
        some ⟨some 52000, "blockgroupB"⟩ :=
  ⟨(sentinel_cleanup_pointwise String
      [⟨some (-666666666), "blockgroupA"⟩, ⟨some 52000, "blockgroupB"⟩] 0
      ⟨some (-666666666), "blockgroupA"⟩ rfl).2.1 rfl,
    (sentinel_cleanup_pointwise String
      [⟨some (-666666666), "blockgroupA"⟩, ⟨some 52000, "blockgroupB"⟩] 1
      ⟨some 52000, "blockgroupB"⟩ rfl).2.2 (by decide)⟩

/-- C5.  If the layer-22 county-subdivision fetch fails with a transport error
(`RequestException`) while the layer-28 places fetch succeeds, no exception
escapes the orchestrator and the concatenated table is exactly the layer-28
rows. -/
theorem failure_isolation_layer28 (rows : List GeoRow) (msg : String)
    (body : Option String) :
    stackedResult (.success rows) (.requestException msg body) = .ok rows := by
  simp [stackedResult, orchestrate, get_tiger_polygons, pdConcat]

/-- C6 counterexample: on a transport failure (here a timeout whose server body
exists but is never read) the only diagnostic line is the exception message;
no line contains the (up to 200 character) response-body snippet, contradicting
the claim that every failure diagnostic includes it. -/
theorem transport_diag_omits_body :
    (get_tiger_polygons [] 22
        (.requestException "Read timed out." (some "error: server overloaded"))).2 =
      ["❌ HTTP Request failed: Read timed out."] ∧
    ∀ line ∈ (get_tiger_polygons [] 22
        (.requestException "Read timed out." (some "error: server overloaded"))).2,
      ¬ (bodySnippet "error: server overloaded").toList <:+: line.toList := by
  refine ⟨rfl, ?_⟩
  intro line hline
  rw [List.mem_singleton.mp hline]
  decide

/-- C6 (amended).  On a parse failure the diagnostic includes up to 200
characters of the raw response body and the layer's mapping entry is left
untouched; on a transport failure the diagnostic is the single exception-message
line without the response body, and the entry is likewise left untouched. -/
theorem fetch_failure_diagnostics (g : List (ℕ × List GeoRow)) (l : ℕ)
    (msg body : String) (obody : Option String) :
    (get_tiger_polygons g l (.parseFailure msg body)).1 = g ∧
      (∃ line ∈ (get_tiger_polygons g l (.parseFailure msg body)).2,
        (bodySnippet body).toList <:+: line.toList ∧ (bodySnippet body).length ≤ 200) ∧
      (get_tiger_polygons g l (.requestException msg obody)).1 = g ∧
      (get_tiger_polygons g l (.requestException msg obody)).2 =
        ["❌ HTTP Request failed: " ++ msg] := by
  refine ⟨rfl, ⟨"   Server Response: " ++ bodySnippet body ++ "...",
    by simp [get_tiger_polygons], ⟨⟨"   Server Response: ".toList, "...".toList, ?_⟩, ?_⟩⟩,
    rfl, rfl⟩
  · simp [String.toList, String.data_append]
  · rw [bodySnippet]
    calc (String.mk (body.toList.take 200)).length = (body.toList.take 200).length := rfl
      _ ≤ 200 := by rw [List.length_take]; exact min_le_left _ _

/-- C7.  The claim says the boundary fetch applies a per-request soft timeout to
its HTTP GET.  The code instead places `"timeout": 60` inside the `params`
query-string dict and calls `requests.get(API_URL, params=params)` with no
`timeout=` argument, so no client-side timeout is applied and the call can
block unboundedly: the timeout keyword argument of every issued GET is absent
while `("timeout", "60")` is merely a query parameter. -/
theorem requests_get_timeout_unset (layerId : ℕ) (whereClause fields service : String) :
    (tigerHttpGet layerId whereClause fields service).timeoutKwarg = none ∧
      ("timeout", "60") ∈ (tigerHttpGet layerId whereClause fields service).queryParams :=
  ⟨rfl, by simp [tigerHttpGet, tigerParams]⟩

/-- C8.  Every labeled centroid row carries a defined decile `d ≥ 19`, its
rendered font size is `max(3, 9·(d/20)³)` — a cubic function of the decile —
never below 3, and equal to 9 when `d = 20`. -/
theorem label_fontsize_cubic (stacked : List GeoRow) (xmin xmax ymin ymax : ℚ)
    (r : GeoRow) (hr : r ∈ visible_centroids stacked xmin xmax ymin ymax) :
    ∃ d : ℕ, r.DECILE = some d ∧ 19 ≤ d ∧
      labelFontSize r = max 3 (9 * ((d : ℚ) / 20) ^ 3) ∧
      3 ≤ labelFontSize r ∧ (d = 20 → labelFontSize r = 9) := by
  obtain ⟨-, hmask⟩ := List.mem_filter.mp hr
  rw [centroidMask] at hmask
  simp only [Bool.and_eq_true, decide_eq_true_eq, decileAtLeast_eq_true_iff] at hmask
  obtain ⟨d, hd, hd19⟩ := hmask.2
  refine ⟨d, hd, hd19, ?_, le_max_left 3 _, ?_⟩
  · rw [labelFontSize, hd, decileFloat, div_pow]
  · intro h20
    rw [labelFontSize, hd, decileFloat, h20]
    norm_num

/-- C8 witness: a concrete decile-20 row inside the extent is labeled at font
size 9. -/
theorem label_fontsize_cubic_witness :
    ∃ d : ℕ, (⟨"08", "Boulder", 1000, 0, 0, some 20⟩ : GeoRow).DECILE = some d ∧
      19 ≤ d ∧
      labelFontSize ⟨"08", "Boulder", 1000, 0, 0, some 20⟩ =
        max 3 (9 * ((d : ℚ) / 20) ^ 3) ∧
      3 ≤ labelFontSize ⟨"08", "Boulder", 1000, 0, 0, some 20⟩ ∧
      (d = 20 → labelFontSize ⟨"08", "Boulder", 1000, 0, 0, some 20⟩ = 9) :=
  label_fontsize_cubic [⟨"08", "Boulder", 1000, 0, 0, some 20⟩] (-1) 1 (-1) 1
    ⟨"08", "Boulder", 1000, 0, 0, some 20⟩ (by decide)

/-- C9.  If both boundary fetches fail, neither layer stores a table, the
per-layer mapping stays empty, and `pd.concat` on the empty collection of
tables raises `ValueError("No objects to concatenate")`: the pipeline stops at
the concatenation step instead of continuing with an empty subset of layers. -/
theorem empty_concat_error (o28 o22 : FetchOutcome) (h28 : o28.stores = false)
    (h22 : o22.stores = false) :
    stackedResult o28 o22 = .error "No objects to concatenate" := by
  cases o28 <;> cases o22 <;>
    simp_all [FetchOutcome.stores, stackedResult, orchestrate, get_tiger_polygons, pdConcat]

/-- C9 witness: a concrete transport failure on layer 28 and parse failure on
layer 22 make the concatenation step fail. -/
theorem empty_concat_error_witness :
    stackedResult (.requestException "Max retries exceeded" none)
        (.parseFailure "Expecting value" "<html>") =
      .error "No objects to concatenate" :=
  empty_concat_error _ _ rfl rfl

/-- C10.  When quantile binning collapses a state's 20 requested buckets to `k`
effective buckets, every defined decile of that state lies in the contiguous
range `1..k`; hence if `k < 19` no row of the state — not even the one with the
largest land area — passes the `DECILE >= 19` label filter. -/
theorem collapsed_deciles_below_cutoff (xs : List ℚ) (v : ℚ) (hv : v ∈ xs) :
    (∀ d, decileOf xs v = some d → 1 ≤ d ∧ d ≤ numBuckets xs) ∧
      (numBuckets xs < 19 → decileAtLeast (decileOf xs v) 19 = false) := by
  have hbound : ∀ d, decileOf xs v = some d → 1 ≤ d ∧ d ≤ numBuckets xs := by
    intro d hd
    simp only [decileOf, qcutCode] at hd
    by_cases hna : qcutIds xs v = 0 ∨ qcutIds xs v = (qcutBins xs).length
    · rw [if_pos hna] at hd
      cases hd
    · rw [if_neg hna] at hd
      push_neg at hna
      have hle := qcutIds_le_length xs v
      simp only [Option.map_some', Option.some.injEq] at hd
      rw [numBuckets]
      omega
  refine ⟨hbound, ?_⟩
  intro hk
  cases hdec : decileOf xs v with
  | none => rfl
  | some d =>
    obtain ⟨-, hd2⟩ := hbound d hdec
    rw [decileAtLeast]
    simp only [decide_eq_false_iff_not, not_le]
    omega

/-- C10 witness: the all-tied group `[5, 5]` collapses (all 21 quantile edges
coincide) to fewer than 19 effective buckets, and its rows fail the
`DECILE >= 19` filter. -/
theorem collapsed_deciles_below_cutoff_witness :
    numBuckets [5, 5] < 19 ∧ decileAtLeast (decileOf [5, 5] 5) 19 = false := by
  have hb : qcutBins [5, 5] = [5] := qcutBins_all_eq (by decide) (by decide)
  have hnb : numBuckets [5, 5] < 19 := by rw [numBuckets, hb]; decide
  exact ⟨hnb, (collapsed_deciles_below_cutoff [5, 5] 5 (by decide)).2 hnb⟩

end Scratch
